import Mathlib

/-!
Verification of the bandwidth aggregation engine of `net_monitor`
(`src/main.rs`), shallowly embedded in Lean.

Conventions of the embedding:
* `u64` counters are modelled as `ℕ`.  The spec (§4.1) explicitly accepts
  wraparound of the unsigned counters as a known, undefended limitation, so
  overflow is out of scope and the idealised unbounded naturals are faithful
  on the intended domain.
* `f64` rates are modelled as `ℚ`.  Every rate the engine produces is a
  quotient of a byte count by `length * tick_seconds`, which the rational
  numbers represent exactly.
* `HashMap` is modelled as an association list with no duplicate keys
  (`keysNodup`); the unspecified iteration order of a hash map is captured by
  quantifying over permutations of the association list where it matters.
* `VecDeque` is a `List` (front = oldest element).
* The estimator and the tick are parametric in the two configuration
  constants (window capacity and tick interval in milliseconds), exactly the
  configuration surface of spec §6; the concrete program instantiates them
  with `MAX_SAMPLES` and `TICK_RATE_MS`.
-/

namespace NetMonitor

/-- Constant `TICK_RATE_MS` from `src/main.rs`. -/
def TICK_RATE_MS : ℕ := 500

/-- Constant `HISTORY_WINDOW_SECS` from `src/main.rs`. -/
def HISTORY_WINDOW_SECS : ℕ := 60

/-- Constant `MAX_SAMPLES = HISTORY_WINDOW_SECS * 1000 / TICK_RATE_MS` from `src/main.rs`. -/
def MAX_SAMPLES : ℕ := HISTORY_WINDOW_SECS * 1000 / TICK_RATE_MS

/-- An IPv4 address: four octets, equality is byte-exact (`std::net::Ipv4Addr`). -/
structure Ipv4Addr where
  o0 : ℕ
  o1 : ℕ
  o2 : ℕ
  o3 : ℕ
deriving DecidableEq, Repr

/-- Predicate `is_lan_ip` from `src/main.rs`:
`(octets[0] == 192 && octets[1] == 168) || (octets[0] == 10)`. -/
def is_lan_ip (ip : Ipv4Addr) : Bool :=
  (ip.o0 == 192 && ip.o1 == 168) || (ip.o0 == 10)

/-- The per-host estimator `IpHistory` from `src/main.rs`: a window of
per-tick byte deltas (oldest first) plus a running sum. -/
structure IpHistory where
  samples : List ℕ
  total_sum : ℕ
deriving DecidableEq, Repr

/-- Constructor `IpHistory::new`. -/
def IpHistory.new : IpHistory := ⟨[], 0⟩

/-- Method `IpHistory::update`, parametric in the window capacity and tick interval:
push the new sample, add it to the sum, evict (and subtract) the oldest
sample when the length exceeds the capacity, and return the new state
together with the average rate `total_sum / (len * tick_seconds)`
(`0.0` when the duration is zero). -/
def IpHistory.updateP (cap tickMs : ℕ) (h : IpHistory) (bytes : ℕ) :
    IpHistory × ℚ :=
  let samples1 := h.samples ++ [bytes]
  let sum1 := h.total_sum + bytes
  let s2 : List ℕ × ℕ :=
    if samples1.length > cap then
      match samples1 with
      | [] => (samples1, sum1)
      | removed :: rest => (rest, sum1 - removed)
    else (samples1, sum1)
  let duration_secs : ℚ := (s2.1.length : ℚ) * ((tickMs : ℚ) / 1000)
  let rate : ℚ := if duration_secs = 0 then 0 else (s2.2 : ℚ) / duration_secs
  (⟨s2.1, s2.2⟩, rate)

/-- Method `IpHistory::update` with the program's constants. -/
def IpHistory.update (h : IpHistory) (bytes : ℕ) : IpHistory × ℚ :=
  h.updateP MAX_SAMPLES TICK_RATE_MS bytes

/-- The shared accumulator `SharedStats` from `src/main.rs`. -/
structure SharedStats where
  traffic_delta : List (Ipv4Addr × ℕ)
  rx_delta : ℕ
  tx_delta : ℕ
deriving DecidableEq, Repr

/-- Association-list lookup (model of `HashMap::get`). -/
def mapLookup {β : Type} (k : Ipv4Addr) : List (Ipv4Addr × β) → Option β
  | [] => none
  | (k', v) :: rest => if k = k' then some v else mapLookup k rest

/-- Association-list insert-or-replace (model of `HashMap::insert` /
`entry(..).or_insert(..)` followed by mutation). -/
def mapInsert {β : Type} (k : Ipv4Addr) (v : β) :
    List (Ipv4Addr × β) → List (Ipv4Addr × β)
  | [] => [(k, v)]
  | (k', v') :: rest =>
    if k = k' then (k, v) :: rest else (k', v') :: mapInsert k v rest

/-- Association-list removal (model of `HashMap::remove`). -/
def mapRemove {β : Type} (k : Ipv4Addr) :
    List (Ipv4Addr × β) → List (Ipv4Addr × β)
  | [] => []
  | (k', v') :: rest =>
    if k = k' then rest else (k', v') :: mapRemove k rest

/-- The association list has no duplicate keys (invariant of the `HashMap`
model). -/
def keysNodup {β : Type} (l : List (Ipv4Addr × β)) : Prop :=
  (l.map Prod.fst).Nodup

instance {β : Type} (l : List (Ipv4Addr × β)) : Decidable (keysNodup l) := by
  unfold keysNodup; infer_instance

/-- The application state `App` from `src/main.rs` (without the UI-only
`last_tick` wall-clock field). -/
structure App where
  rx_history : List ℚ
  tx_history : List ℚ
  total_rx_bytes : ℕ
  total_tx_bytes : ℕ
  peak_rx_rate : ℕ
  peak_tx_rate : ℕ
  ip_histories : List (Ipv4Addr × IpHistory)
  top_talkers : List (Ipv4Addr × ℚ)
deriving DecidableEq

/-- Constructor `App::new`: both history buffers start filled with `MAX_SAMPLES` zeros. -/
def App.new : App :=
  { rx_history := List.replicate MAX_SAMPLES 0
    tx_history := List.replicate MAX_SAMPLES 0
    total_rx_bytes := 0
    total_tx_bytes := 0
    peak_rx_rate := 0
    peak_tx_rate := 0
    ip_histories := []
    top_talkers := [] }

/-- The host list built in `App::on_tick`: all tracked keys, then the drained
keys not already tracked. -/
def allIps (hists : List (Ipv4Addr × IpHistory)) (delta : List (Ipv4Addr × ℕ)) :
    List Ipv4Addr :=
  hists.map Prod.fst ++
    (delta.map Prod.fst).filter (fun k => (mapLookup k hists).isNone)

/-- The per-host body of the `for ip in all_ips` loop of `App::on_tick`:
look up the drained delta (default 0), look up or create the estimator, and
run `IpHistory::update` on it. -/
def hostStep (cap tickMs : ℕ) (delta : List (Ipv4Addr × ℕ))
    (hists : List (Ipv4Addr × IpHistory)) (ip : Ipv4Addr) : IpHistory × ℚ :=
  IpHistory.updateP cap tickMs ((mapLookup ip hists).getD IpHistory.new)
    ((mapLookup ip delta).getD 0)

/-- The `for ip in all_ips` loop of `App::on_tick`: each host's estimator is
updated with its drained delta; hosts whose running sum stays positive are
kept (and appended to the snapshot), hosts whose sum reaches 0 are removed. -/
def tickHostsP (cap tickMs : ℕ) (delta : List (Ipv4Addr × ℕ)) :
    List Ipv4Addr → List (Ipv4Addr × IpHistory) → List (Ipv4Addr × ℚ) →
    List (Ipv4Addr × IpHistory) × List (Ipv4Addr × ℚ)
  | [], hists, snap => (hists, snap)
  | ip :: rest, hists, snap =>
    if 0 < (hostStep cap tickMs delta hists ip).1.total_sum then
      tickHostsP cap tickMs delta rest
        (mapInsert ip (hostStep cap tickMs delta hists ip).1 hists)
        (snap ++ [(ip, (hostStep cap tickMs delta hists ip).2)])
    else
      tickHostsP cap tickMs delta rest (mapRemove ip hists) snap

/-- Model of `current_snapshot.sort_by(|a, b| b.1.partial_cmp(&a.1).unwrap())`:
stable sort, descending by rate. -/
def rankSort (l : List (Ipv4Addr × ℚ)) : List (Ipv4Addr × ℚ) :=
  l.mergeSort (fun a b => decide (b.2 ≤ a.2))

/-- Method `App::on_tick`, parametric in capacity and tick interval: shift the two
global history buffers, bump totals and peaks, update every host estimator,
rebuild `top_talkers`, and clear the shared accumulator.  Returns the new
`App` and the reset `SharedStats`. -/
def onTickP (cap tickMs : ℕ) (app : App) (stats : SharedStats) :
    App × SharedStats :=
  let hs := tickHostsP cap tickMs stats.traffic_delta
    (allIps app.ip_histories stats.traffic_delta) app.ip_histories []
  ({ rx_history := app.rx_history.tail ++ [(stats.rx_delta : ℚ)]
     tx_history := app.tx_history.tail ++ [(stats.tx_delta : ℚ)]
     total_rx_bytes := app.total_rx_bytes + stats.rx_delta
     total_tx_bytes := app.total_tx_bytes + stats.tx_delta
     peak_rx_rate :=
       if stats.rx_delta > app.peak_rx_rate then stats.rx_delta
       else app.peak_rx_rate
     peak_tx_rate :=
       if stats.tx_delta > app.peak_tx_rate then stats.tx_delta
       else app.peak_tx_rate
     ip_histories := hs.1
     top_talkers := rankSort hs.2 },
   { traffic_delta := [], rx_delta := 0, tx_delta := 0 })

/-- Method `App::on_tick` with the program's constants. -/
def App.on_tick (app : App) (stats : SharedStats) : App × SharedStats :=
  onTickP MAX_SAMPLES TICK_RATE_MS app stats

/-- One captured IPv4 frame as seen by the capture thread: parsed source,
destination, and the frame's byte length. -/
structure Frame where
  src : Ipv4Addr
  dst : Ipv4Addr
  len : ℕ
deriving DecidableEq, Repr

/-- The capture-thread body from `src/main.rs` (lines 200–212): add the
frame length to `tx_delta` when the source is the local IP, otherwise to
`rx_delta`; then add it to the per-host counter of the source and of the
destination, each only when `is_lan_ip` holds for that address. -/
def record (local_ip : Ipv4Addr) (s : SharedStats) (f : Frame) : SharedStats :=
  let s1 :=
    if f.src = local_ip then { s with tx_delta := s.tx_delta + f.len }
    else { s with rx_delta := s.rx_delta + f.len }
  let td1 := mapInsert f.src ((mapLookup f.src s1.traffic_delta).getD 0 + f.len)
    s1.traffic_delta
  let s2 := if is_lan_ip f.src then { s1 with traffic_delta := td1 } else s1
  let td2 := mapInsert f.dst ((mapLookup f.dst s2.traffic_delta).getD 0 + f.len)
    s2.traffic_delta
  if is_lan_ip f.dst then { s2 with traffic_delta := td2 } else s2

/-! ### Estimator lemmas -/

/-- Shape of the post-update state: append the sample; when the capacity is
exceeded, drop the head and subtract it. -/
theorem IpHistory.updateP_fst (cap tickMs : ℕ) (h : IpHistory) (b : ℕ) :
    (h.updateP cap tickMs b).1 =
      if cap < (h.samples ++ [b]).length then
        ⟨(h.samples ++ [b]).tail, h.total_sum + b - (h.samples ++ [b]).headI⟩
      else ⟨h.samples ++ [b], h.total_sum + b⟩ := by
  cases hs : h.samples with
  | nil => simp only [updateP, hs]; simp; split <;> rfl
  | cons a t => simp only [updateP, hs]; simp; split <;> rfl

/-- The returned rate is `sum / (len * tickMs/1000)` over the post-update
state, `0` when that duration is zero. -/
theorem IpHistory.updateP_snd (cap tickMs : ℕ) (h : IpHistory) (b : ℕ) :
    (h.updateP cap tickMs b).2 =
      if ((h.updateP cap tickMs b).1.samples.length : ℚ) * ((tickMs : ℚ) / 1000)
          = 0 then 0
      else ((h.updateP cap tickMs b).1.total_sum : ℚ) /
        (((h.updateP cap tickMs b).1.samples.length : ℚ) *
          ((tickMs : ℚ) / 1000)) := rfl

/-- Method `update` preserves the window-sum invariant. -/
theorem IpHistory.updateP_sum_eq (cap tickMs : ℕ) (h : IpHistory) (b : ℕ)
    (hinv : h.total_sum = h.samples.sum) :
    (h.updateP cap tickMs b).1.total_sum =
      (h.updateP cap tickMs b).1.samples.sum := by
  rw [updateP_fst]
  split
  · cases hs : h.samples with
    | nil => simp [hs] at hinv ⊢; omega
    | cons a t =>
      rw [hs] at hinv
      simp [hs, List.sum_append] at hinv ⊢
      omega
  · simp [List.sum_append, hinv]

/-- Length of the post-update window. -/
theorem IpHistory.updateP_length (cap tickMs : ℕ) (h : IpHistory) (b : ℕ) :
    (h.updateP cap tickMs b).1.samples.length =
      if cap < h.samples.length + 1 then h.samples.length
      else h.samples.length + 1 := by
  rw [updateP_fst]
  by_cases hc : cap < h.samples.length + 1
  · rw [if_pos (by simpa using hc), if_pos hc]
    simp
  · rw [if_neg (by simpa using hc), if_neg hc]
    simp

/-- The estimator state after a whole sequence of `update` calls, starting
from `IpHistory::new` and using the program's constants. -/
def runUpdates (bs : List ℕ) : IpHistory :=
  bs.foldl (fun h b => (h.update b).1) IpHistory.new

theorem foldl_update_inv (bs : List ℕ) (h : IpHistory)
    (h1 : h.total_sum = h.samples.sum)
    (h2 : h.samples.length ≤ MAX_SAMPLES) :
    (bs.foldl (fun h b => (h.update b).1) h).total_sum =
        (bs.foldl (fun h b => (h.update b).1) h).samples.sum ∧
      (bs.foldl (fun h b => (h.update b).1) h).samples.length ≤ MAX_SAMPLES := by
  induction bs generalizing h with
  | nil => exact ⟨h1, h2⟩
  | cons b rest ih =>
    refine ih _ (IpHistory.updateP_sum_eq _ _ _ _ h1) ?_
    show (h.update b).1.samples.length ≤ MAX_SAMPLES
    rw [IpHistory.update, IpHistory.updateP_length]
    split <;> omega

/-- Claim C1: after every call in any sequence of `update` calls the running
sum equals the sum of the samples currently held in the window and the window
length never exceeds `MAX_SAMPLES`; when an append makes the length exceed
the capacity, the oldest sample is removed and subtracted from the sum in the
same step, and the subtraction never underflows (the removed sample is at
most the pre-subtraction sum, so the subtracted difference is exact). -/
theorem C1_window_sum_invariant (bs : List ℕ) :
    ((runUpdates bs).total_sum = (runUpdates bs).samples.sum ∧
      (runUpdates bs).samples.length ≤ MAX_SAMPLES) ∧
    ∀ b : ℕ, MAX_SAMPLES < (runUpdates bs).samples.length + 1 →
      ((runUpdates bs).update b).1.samples =
          ((runUpdates bs).samples ++ [b]).tail ∧
      ((runUpdates bs).update b).1.samples.length =
          (runUpdates bs).samples.length ∧
      ((runUpdates bs).samples ++ [b]).headI ≤ (runUpdates bs).total_sum + b ∧
      ((runUpdates bs).update b).1.total_sum +
          ((runUpdates bs).samples ++ [b]).headI =
        (runUpdates bs).total_sum + b := by
  have hinv : (runUpdates bs).total_sum = (runUpdates bs).samples.sum ∧
      (runUpdates bs).samples.length ≤ MAX_SAMPLES :=
    foldl_update_inv bs IpHistory.new rfl (by simp [IpHistory.new])
  refine ⟨hinv, ?_⟩
  intro b hfull
  have hhead : ((runUpdates bs).samples ++ [b]).headI ≤ (runUpdates bs).total_sum + b := by
    rw [hinv.1]
    cases hs : (runUpdates bs).samples with
    | nil => simp
    | cons a t => simp [List.sum_cons]; omega
  have hfst := IpHistory.updateP_fst MAX_SAMPLES TICK_RATE_MS (runUpdates bs) b
  rw [if_pos (by simp; omega : MAX_SAMPLES < ((runUpdates bs).samples ++ [b]).length)] at hfst
  refine ⟨?_, ?_, hhead, ?_⟩
  · rw [IpHistory.update, hfst]
  · rw [IpHistory.update, IpHistory.updateP_length, if_pos hfull]
  · rw [IpHistory.update, hfst]
    simp only
    omega

set_option maxRecDepth 100000 in
/-- Witness for C1: a concrete full window (121 samples of 1 into capacity
120) where the next `update` evicts. -/
theorem C1_window_sum_invariant_witness :
    MAX_SAMPLES < (runUpdates (List.replicate 121 1)).samples.length + 1 ∧
    (((runUpdates (List.replicate 121 1)).update 5).1.samples =
        ((runUpdates (List.replicate 121 1)).samples ++ [5]).tail ∧
      ((runUpdates (List.replicate 121 1)).update 5).1.samples.length =
        (runUpdates (List.replicate 121 1)).samples.length ∧
      ((runUpdates (List.replicate 121 1)).samples ++ [5]).headI ≤
        (runUpdates (List.replicate 121 1)).total_sum + 5 ∧
      ((runUpdates (List.replicate 121 1)).update 5).1.total_sum +
          ((runUpdates (List.replicate 121 1)).samples ++ [5]).headI =
        (runUpdates (List.replicate 121 1)).total_sum + 5) :=
  ⟨by decide, (C1_window_sum_invariant (List.replicate 121 1)).2 5 (by decide)⟩

/-- Claim C5: `update` returns `running sum / (window length *
tick-interval-in-seconds)` computed over the post-update state (`0` when the
window length is `0`), and a host with fewer than `MAX_SAMPLES` samples is
averaged over however many samples exist (`len + 1`), not over the full
capacity. -/
theorem C5_average_rate (h : IpHistory) (b : ℕ)
    (hlen : h.samples.length ≤ MAX_SAMPLES) :
    ((h.update b).2 =
      if (h.update b).1.samples.length = 0 then 0
      else ((h.update b).1.total_sum : ℚ) /
        (((h.update b).1.samples.length : ℚ) * ((TICK_RATE_MS : ℚ) / 1000))) ∧
    (h.update b).1.samples.length = min (h.samples.length + 1) MAX_SAMPLES := by
  constructor
  · simp only [IpHistory.update]
    rw [IpHistory.updateP_snd]
    have hq : ((TICK_RATE_MS : ℚ) / 1000) ≠ 0 := by
      rw [TICK_RATE_MS]; norm_num
    by_cases h0 : (h.updateP MAX_SAMPLES TICK_RATE_MS b).1.samples.length = 0
    · simp [h0]
    · have hne : (((h.updateP MAX_SAMPLES TICK_RATE_MS b).1.samples.length : ℚ) *
          ((TICK_RATE_MS : ℚ) / 1000)) ≠ 0 :=
        mul_ne_zero (by exact_mod_cast h0) hq
      rw [if_neg hne, if_neg h0]
  · simp only [IpHistory.update]
    rw [IpHistory.updateP_length]
    split <;> omega

/-- Witness for C5: one concrete update on a one-sample window. -/
theorem C5_average_rate_witness :
    (⟨[3], 3⟩ : IpHistory).samples.length ≤ MAX_SAMPLES ∧
    (((⟨[3], 3⟩ : IpHistory).update 2).2 =
      if ((⟨[3], 3⟩ : IpHistory).update 2).1.samples.length = 0 then 0
      else (((⟨[3], 3⟩ : IpHistory).update 2).1.total_sum : ℚ) /
        ((((⟨[3], 3⟩ : IpHistory).update 2).1.samples.length : ℚ) *
          ((TICK_RATE_MS : ℚ) / 1000))) ∧
    ((⟨[3], 3⟩ : IpHistory).update 2).1.samples.length =
      min ((⟨[3], 3⟩ : IpHistory).samples.length + 1) MAX_SAMPLES :=
  ⟨by decide, C5_average_rate ⟨[3], 3⟩ 2 (by decide)⟩

/-! ### Association-list (HashMap model) lemmas -/

section MapLemmas

variable {β : Type}

theorem mapLookup_insert_self (k : Ipv4Addr) (v : β) (l : List (Ipv4Addr × β)) :
    mapLookup k (mapInsert k v l) = some v := by
  induction l with
  | nil => simp [mapInsert, mapLookup]
  | cons p rest ih =>
    obtain ⟨k', v'⟩ := p
    by_cases hk : k = k'
    · simp [mapInsert, mapLookup, hk]
    · simp [mapInsert, mapLookup, hk, ih]

theorem mapLookup_insert_ne {k k' : Ipv4Addr} (hk : k ≠ k') (v : β)
    (l : List (Ipv4Addr × β)) :
    mapLookup k (mapInsert k' v l) = mapLookup k l := by
  induction l with
  | nil => simp [mapInsert, mapLookup, hk]
  | cons p rest ih =>
    obtain ⟨a, w⟩ := p
    by_cases ha : k' = a
    · subst ha
      simp [mapInsert, mapLookup, hk]
    · by_cases hb : k = a
      · simp [mapInsert, mapLookup, ha, hb]
      · simp [mapInsert, mapLookup, ha, hb, ih]

theorem mapLookup_remove_ne {k k' : Ipv4Addr} (hk : k ≠ k')
    (l : List (Ipv4Addr × β)) :
    mapLookup k (mapRemove k' l) = mapLookup k l := by
  induction l with
  | nil => simp [mapRemove]
  | cons p rest ih =>
    obtain ⟨a, w⟩ := p
    by_cases ha : k' = a
    · subst ha
      simp [mapRemove, mapLookup, hk]
    · by_cases hb : k = a
      · simp [mapRemove, mapLookup, ha, hb]
      · simp [mapRemove, mapLookup, ha, hb, ih]

theorem mapLookup_eq_none_iff (k : Ipv4Addr) (l : List (Ipv4Addr × β)) :
    mapLookup k l = none ↔ k ∉ l.map Prod.fst := by
  induction l with
  | nil => simp [mapLookup]
  | cons p rest ih =>
    obtain ⟨a, w⟩ := p
    by_cases hb : k = a
    · simp [mapLookup, hb]
    · simp [mapLookup, hb, ih]

theorem mapLookup_remove_self (k : Ipv4Addr) {l : List (Ipv4Addr × β)}
    (hn : keysNodup l) :
    mapLookup k (mapRemove k l) = none := by
  induction l with
  | nil => simp [mapRemove, mapLookup]
  | cons p rest ih =>
    obtain ⟨a, w⟩ := p
    rw [keysNodup, List.map_cons] at hn
    have hn1 := (List.nodup_cons.1 hn).1
    have hn2 : keysNodup rest := (List.nodup_cons.1 hn).2
    by_cases hb : k = a
    · subst hb
      rw [mapRemove, if_pos rfl, mapLookup_eq_none_iff]
      exact hn1
    · rw [mapRemove, if_neg hb, mapLookup, if_neg hb]
      exact ih hn2

theorem mem_keys_mapInsert (a k : Ipv4Addr) (v : β) (l : List (Ipv4Addr × β)) :
    a ∈ (mapInsert k v l).map Prod.fst ↔ a = k ∨ a ∈ l.map Prod.fst := by
  induction l with
  | nil => simp [mapInsert]
  | cons p rest ih =>
    obtain ⟨b, w⟩ := p
    by_cases hb : k = b
    · subst hb
      simp [mapInsert]
    · simp [mapInsert, hb, ih]
      tauto

theorem keysNodup_mapInsert (k : Ipv4Addr) (v : β) {l : List (Ipv4Addr × β)}
    (hn : keysNodup l) : keysNodup (mapInsert k v l) := by
  induction l with
  | nil => simp [mapInsert, keysNodup]
  | cons p rest ih =>
    obtain ⟨b, w⟩ := p
    rw [keysNodup, List.map_cons] at hn
    have hn1 := (List.nodup_cons.1 hn).1
    have hn2 : keysNodup rest := (List.nodup_cons.1 hn).2
    by_cases hb : k = b
    · subst hb
      rw [mapInsert, if_pos rfl, keysNodup, List.map_cons]
      exact List.nodup_cons.2 ⟨hn1, hn2⟩
    · rw [mapInsert, if_neg hb, keysNodup, List.map_cons]
      refine List.nodup_cons.2 ⟨?_, ih hn2⟩
      rw [mem_keys_mapInsert]
      rintro (h1 | h2)
      · exact hb h1.symm
      · exact hn1 h2

theorem mem_keys_mapRemove (a k : Ipv4Addr) {l : List (Ipv4Addr × β)}
    (hn : keysNodup l) :
    a ∈ (mapRemove k l).map Prod.fst ↔ a ∈ l.map Prod.fst ∧ a ≠ k := by
  induction l with
  | nil => simp [mapRemove]
  | cons p rest ih =>
    obtain ⟨b, w⟩ := p
    rw [keysNodup, List.map_cons] at hn
    have hn1 := (List.nodup_cons.1 hn).1
    have hn2 : keysNodup rest := (List.nodup_cons.1 hn).2
    by_cases hb : k = b
    · subst hb
      rw [mapRemove, if_pos rfl, List.map_cons]
      constructor
      · intro hmem
        refine ⟨List.mem_cons_of_mem _ hmem, ?_⟩
        rintro rfl
        exact hn1 hmem
      · rintro ⟨h1, hne⟩
        rcases List.mem_cons.1 h1 with h | h
        · exact absurd h hne
        · exact h
    · rw [mapRemove, if_neg hb, List.map_cons, List.map_cons,
        List.mem_cons, List.mem_cons, ih hn2]
      constructor
      · rintro (h1 | ⟨h2, hne⟩)
        · exact ⟨Or.inl h1, fun heq => hb (by rw [← heq, h1])⟩
        · exact ⟨Or.inr h2, hne⟩
      · rintro ⟨h1 | h1, hne⟩
        · exact Or.inl h1
        · exact Or.inr ⟨h1, hne⟩

theorem keysNodup_mapRemove (k : Ipv4Addr) {l : List (Ipv4Addr × β)}
    (hn : keysNodup l) : keysNodup (mapRemove k l) := by
  induction l with
  | nil => simp [mapRemove, keysNodup]
  | cons p rest ih =>
    obtain ⟨b, w⟩ := p
    rw [keysNodup, List.map_cons] at hn
    have hn1 := (List.nodup_cons.1 hn).1
    have hn2 : keysNodup rest := (List.nodup_cons.1 hn).2
    by_cases hb : k = b
    · subst hb
      rw [mapRemove, if_pos rfl]
      exact hn2
    · rw [mapRemove, if_neg hb, keysNodup, List.map_cons]
      refine List.nodup_cons.2 ⟨?_, ih hn2⟩
      rw [mem_keys_mapRemove _ _ hn2]
      rintro ⟨h1, _⟩
      exact hn1 h1

theorem mapLookup_eq_some_of_mem {k : Ipv4Addr} {v : β} {l : List (Ipv4Addr × β)}
    (hn : keysNodup l) (hm : (k, v) ∈ l) : mapLookup k l = some v := by
  induction l with
  | nil => simp at hm
  | cons p rest ih =>
    obtain ⟨b, w⟩ := p
    rw [keysNodup, List.map_cons] at hn
    have hn1 := (List.nodup_cons.1 hn).1
    have hn2 : keysNodup rest := (List.nodup_cons.1 hn).2
    rcases List.mem_cons.1 hm with h1 | h2
    · have h1a : k = b := congrArg Prod.fst h1
      have h1b : v = w := congrArg Prod.snd h1
      rw [mapLookup, if_pos h1a, h1b]
    · by_cases hb : k = b
      · exfalso
        subst hb
        exact hn1 (show k ∈ rest.map Prod.fst from
          List.mem_map_of_mem Prod.fst h2)
      · rw [mapLookup, if_neg hb]
        exact ih hn2 h2

theorem mem_of_mapLookup_eq_some {k : Ipv4Addr} {v : β} {l : List (Ipv4Addr × β)}
    (hl : mapLookup k l = some v) : (k, v) ∈ l := by
  induction l with
  | nil => simp [mapLookup] at hl
  | cons p rest ih =>
    obtain ⟨b, w⟩ := p
    by_cases hb : k = b
    · rw [mapLookup, if_pos hb] at hl
      have hv : w = v := Option.some_inj.1 hl
      subst hb
      subst hv
      exact List.mem_cons_self _ _
    · rw [mapLookup, if_neg hb] at hl
      exact List.mem_cons_of_mem _ (ih hl)

theorem keysNodup_of_perm {l₁ l₂ : List (Ipv4Addr × β)} (hp : l₁.Perm l₂)
    (hn : keysNodup l₁) : keysNodup l₂ :=
  ((hp.map Prod.fst).nodup_iff).1 hn

theorem mapLookup_eq_of_perm (k : Ipv4Addr) {l₁ l₂ : List (Ipv4Addr × β)}
    (hp : l₁.Perm l₂) (hn : keysNodup l₁) :
    mapLookup k l₁ = mapLookup k l₂ := by
  cases hl : mapLookup k l₁ with
  | none =>
    rw [mapLookup_eq_none_iff] at hl
    rw [eq_comm, mapLookup_eq_none_iff]
    exact fun hm => hl ((hp.map Prod.fst).mem_iff.2 hm)
  | some v =>
    rw [eq_comm]
    exact mapLookup_eq_some_of_mem (keysNodup_of_perm hp hn)
      (hp.mem_iff.1 (mem_of_mapLookup_eq_some hl))

end MapLemmas

/-! ### Tick-loop lemmas -/

theorem updateP_new_zero_sum (cap tickMs : ℕ) :
    (IpHistory.new.updateP cap tickMs 0).1.total_sum = 0 := by
  rw [IpHistory.updateP_fst]
  split <;> simp [IpHistory.new]

theorem hostStep_congr (cap tickMs : ℕ) (delta : List (Ipv4Addr × ℕ))
    {h1 h2 : List (Ipv4Addr × IpHistory)} (ip : Ipv4Addr)
    (hl : mapLookup ip h1 = mapLookup ip h2) :
    hostStep cap tickMs delta h1 ip = hostStep cap tickMs delta h2 ip := by
  rw [hostStep, hostStep, hl]

theorem filterMap_hostStep_congr (cap tickMs : ℕ) (delta : List (Ipv4Addr × ℕ))
    {h1 h2 : List (Ipv4Addr × IpHistory)} (rest : List Ipv4Addr)
    (hl : ∀ x ∈ rest, mapLookup x h1 = mapLookup x h2) :
    rest.filterMap (fun ip =>
        if 0 < (hostStep cap tickMs delta h1 ip).1.total_sum
        then some (ip, (hostStep cap tickMs delta h1 ip).2) else none) =
      rest.filterMap (fun ip =>
        if 0 < (hostStep cap tickMs delta h2 ip).1.total_sum
        then some (ip, (hostStep cap tickMs delta h2 ip).2) else none) :=
  List.filterMap_congr (fun x hx => by
    rw [hostStep_congr cap tickMs delta x (hl x hx)])

theorem tickHostsP_lookup_not_mem (cap tickMs : ℕ)
    (delta : List (Ipv4Addr × ℕ)) (ip : Ipv4Addr) :
    ∀ (ips : List Ipv4Addr) (hists : List (Ipv4Addr × IpHistory))
      (snap : List (Ipv4Addr × ℚ)), ip ∉ ips →
      mapLookup ip (tickHostsP cap tickMs delta ips hists snap).1 =
        mapLookup ip hists := by
  intro ips
  induction ips with
  | nil => intro hists snap _; rfl
  | cons a rest ih =>
    intro hists snap hip
    have hne : ip ≠ a := fun heq => hip (heq ▸ List.mem_cons_self a rest)
    have hrest : ip ∉ rest := fun hm => hip (List.mem_cons_of_mem _ hm)
    rw [tickHostsP]
    split
    · rw [ih _ _ hrest, mapLookup_insert_ne hne]
    · rw [ih _ _ hrest, mapLookup_remove_ne hne]

theorem tickHostsP_lookup_mem (cap tickMs : ℕ)
    (delta : List (Ipv4Addr × ℕ)) (ip : Ipv4Addr) :
    ∀ (ips : List Ipv4Addr) (hists : List (Ipv4Addr × IpHistory))
      (snap : List (Ipv4Addr × ℚ)), ips.Nodup → keysNodup hists → ip ∈ ips →
      mapLookup ip (tickHostsP cap tickMs delta ips hists snap).1 =
        (if 0 < (hostStep cap tickMs delta hists ip).1.total_sum
         then some (hostStep cap tickMs delta hists ip).1 else none) := by
  intro ips
  induction ips with
  | nil => intro hists snap _ _ hip; cases hip
  | cons a rest ih =>
    intro hists snap hips hn hip
    rw [tickHostsP]
    rcases List.mem_cons.1 hip with rfl | hmem
    · have hrest : ip ∉ rest := (List.nodup_cons.1 hips).1
      split <;> rename_i hcond
      · rw [tickHostsP_lookup_not_mem _ _ _ _ _ _ _ hrest,
          mapLookup_insert_self]
      · rw [tickHostsP_lookup_not_mem _ _ _ _ _ _ _ hrest,
          mapLookup_remove_self _ hn]
    · have hne : ip ≠ a := by
        rintro rfl
        exact (List.nodup_cons.1 hips).1 hmem
      split
      · rw [ih _ _ (List.nodup_cons.1 hips).2
          (keysNodup_mapInsert _ _ hn) hmem,
          hostStep_congr cap tickMs delta ip (mapLookup_insert_ne hne _ _)]
      · rw [ih _ _ (List.nodup_cons.1 hips).2
          (keysNodup_mapRemove _ hn) hmem,
          hostStep_congr cap tickMs delta ip (mapLookup_remove_ne hne _)]

theorem tickHostsP_keysNodup (cap tickMs : ℕ) (delta : List (Ipv4Addr × ℕ)) :
    ∀ (ips : List Ipv4Addr) (hists : List (Ipv4Addr × IpHistory))
      (snap : List (Ipv4Addr × ℚ)), keysNodup hists →
      keysNodup (tickHostsP cap tickMs delta ips hists snap).1 := by
  intro ips
  induction ips with
  | nil => intro hists snap hn; exact hn
  | cons a rest ih =>
    intro hists snap hn
    rw [tickHostsP]
    split
    · exact ih _ _ (keysNodup_mapInsert _ _ hn)
    · exact ih _ _ (keysNodup_mapRemove _ hn)

theorem tickHostsP_snd (cap tickMs : ℕ) (delta : List (Ipv4Addr × ℕ)) :
    ∀ (ips : List Ipv4Addr) (hists : List (Ipv4Addr × IpHistory))
      (snap : List (Ipv4Addr × ℚ)), ips.Nodup → keysNodup hists →
      (tickHostsP cap tickMs delta ips hists snap).2 =
        snap ++ ips.filterMap (fun ip =>
          if 0 < (hostStep cap tickMs delta hists ip).1.total_sum
          then some (ip, (hostStep cap tickMs delta hists ip).2) else none) := by
  intro ips
  induction ips with
  | nil => intro hists snap _ _; simp [tickHostsP]
  | cons a rest ih =>
    intro hists snap hips hn
    have hrest : a ∉ rest := (List.nodup_cons.1 hips).1
    rw [tickHostsP]
    split <;> rename_i hcond
    · rw [ih _ _ (List.nodup_cons.1 hips).2 (keysNodup_mapInsert _ _ hn),
        filterMap_hostStep_congr cap tickMs delta rest
          (fun x hx => mapLookup_insert_ne
            (by rintro rfl; exact hrest hx) _ _)]
      simp [List.filterMap_cons, hcond]
    · rw [ih _ _ (List.nodup_cons.1 hips).2 (keysNodup_mapRemove _ hn),
        filterMap_hostStep_congr cap tickMs delta rest
          (fun x hx => mapLookup_remove_ne
            (by rintro rfl; exact hrest hx) _)]
      simp [List.filterMap_cons, hcond]

theorem mem_allIps (hists : List (Ipv4Addr × IpHistory))
    (delta : List (Ipv4Addr × ℕ)) (a : Ipv4Addr) :
    a ∈ allIps hists delta ↔
      a ∈ hists.map Prod.fst ∨ a ∈ delta.map Prod.fst := by
  rw [allIps, List.mem_append, List.mem_filter]
  constructor
  · rintro (h | ⟨h, _⟩)
    · exact Or.inl h
    · exact Or.inr h
  · rintro (h | h)
    · exact Or.inl h
    · by_cases hh : a ∈ hists.map Prod.fst
      · exact Or.inl hh
      · refine Or.inr ⟨h, ?_⟩
        rw [Option.isNone_iff_eq_none, mapLookup_eq_none_iff]
        exact hh

theorem allIps_nodup {hists : List (Ipv4Addr × IpHistory)}
    {delta : List (Ipv4Addr × ℕ)} (hn : keysNodup hists)
    (hd : keysNodup delta) : (allIps hists delta).Nodup := by
  rw [allIps]
  refine List.Nodup.append hn (List.Nodup.filter _ hd) ?_
  intro a ha hb
  rw [List.mem_filter] at hb
  have hnone := Option.isNone_iff_eq_none.1 hb.2
  rw [mapLookup_eq_none_iff] at hnone
  exact hnone ha

/-- The dictionary of tracked hosts after one tick, characterised pointwise:
a host's estimator is present after the tick exactly when its updated
running sum is positive, and then it equals the updated estimator. -/
theorem tick_lookup_char (cap tickMs : ℕ) (app : App) (stats : SharedStats)
    (hn : keysNodup app.ip_histories) (hd : keysNodup stats.traffic_delta)
    (ip : Ipv4Addr) :
    mapLookup ip (onTickP cap tickMs app stats).1.ip_histories =
      (if 0 < (hostStep cap tickMs stats.traffic_delta
          app.ip_histories ip).1.total_sum
       then some (hostStep cap tickMs stats.traffic_delta
          app.ip_histories ip).1
       else none) := by
  have hon : (onTickP cap tickMs app stats).1.ip_histories =
      (tickHostsP cap tickMs stats.traffic_delta
        (allIps app.ip_histories stats.traffic_delta) app.ip_histories []).1 :=
    rfl
  rw [hon]
  by_cases hip : ip ∈ allIps app.ip_histories stats.traffic_delta
  · exact tickHostsP_lookup_mem cap tickMs stats.traffic_delta ip _ _ _
      (allIps_nodup hn hd) hn hip
  · rw [tickHostsP_lookup_not_mem cap tickMs stats.traffic_delta ip _ _ _ hip]
    have h1 : mapLookup ip app.ip_histories = none := by
      rw [mapLookup_eq_none_iff]
      exact fun hh => hip ((mem_allIps _ _ _).2 (Or.inl hh))
    have h2 : mapLookup ip stats.traffic_delta = none := by
      rw [mapLookup_eq_none_iff]
      exact fun hh => hip ((mem_allIps _ _ _).2 (Or.inr hh))
    have hz : (hostStep cap tickMs stats.traffic_delta
        app.ip_histories ip).1.total_sum = 0 := by
      rw [hostStep, h1, h2]
      simpa using updateP_new_zero_sum cap tickMs
    rw [h1, if_neg (by simp [hz])]

/-- A host outside the considered set (neither tracked nor in the drained
mapping) would be updated as a fresh estimator with delta 0, whose sum is 0. -/
theorem hostStep_zero_of_not_mem (cap tickMs : ℕ)
    (delta : List (Ipv4Addr × ℕ)) (hists : List (Ipv4Addr × IpHistory))
    (ip : Ipv4Addr) (hip : ip ∉ allIps hists delta) :
    (hostStep cap tickMs delta hists ip).1.total_sum = 0 := by
  have h1 : mapLookup ip hists = none := by
    rw [mapLookup_eq_none_iff]
    exact fun hh => hip ((mem_allIps _ _ _).2 (Or.inl hh))
  have h2 : mapLookup ip delta = none := by
    rw [mapLookup_eq_none_iff]
    exact fun hh => hip ((mem_allIps _ _ _).2 (Or.inr hh))
  rw [hostStep, h1, h2]
  simpa using updateP_new_zero_sum cap tickMs

theorem sum_drop_tail_append_zero (s : List ℕ) (j : ℕ) :
    (((s ++ [0]).tail).drop j).sum = (s.drop (j + 1)).sum := by
  cases s with
  | nil => simp
  | cons a t =>
    simp only [List.cons_append, List.tail_cons, List.drop_succ_cons]
    rw [List.drop_append_eq_append_drop, List.sum_append]
    cases hk : j - t.length <;> simp

/-- Feeding zero deltas to a full window: after `j` zero updates the running
sum is the sum of the original samples with the first `j` dropped, so it
first reaches 0 exactly when the last nonzero sample has aged out. -/
theorem zero_feed_sum (cap tickMs : ℕ) :
    ∀ (j : ℕ) (h : IpHistory), h.total_sum = h.samples.sum →
      h.samples.length = cap →
      ((fun hh : IpHistory => (hh.updateP cap tickMs 0).1)^[j] h).total_sum =
        (h.samples.drop j).sum := by
  intro j
  induction j with
  | zero => intro h hinv _; simpa using hinv
  | succ j ih =>
    intro h hinv hfull
    rw [Function.iterate_succ_apply]
    have hinv' := IpHistory.updateP_sum_eq cap tickMs h 0 hinv
    have hfull' : ((h.updateP cap tickMs 0).1).samples.length = cap := by
      rw [IpHistory.updateP_length, if_pos (by omega)]
      exact hfull
    rw [ih _ hinv' hfull']
    have hsamp : (h.updateP cap tickMs 0).1.samples = (h.samples ++ [0]).tail := by
      rw [IpHistory.updateP_fst, if_pos (by simp [hfull])]
    rw [hsamp]
    exact sum_drop_tail_append_zero h.samples j

/-- Claim C3: after a tick, a host is tracked (with its updated estimator)
if and only if its updated running sum is positive — so an estimator is
removed exactly on the first tick at which its running sum reaches 0 after
that tick's update, not earlier or later; and for a full window fed zero
deltas, after `j` zero ticks the running sum equals the sum of the original
window with its first `j` samples dropped, reaching 0 exactly when every
remaining original sample is 0, i.e. on the tick the last nonzero sample
ages out. -/
theorem C3_host_pruning :
    (∀ (cap tickMs : ℕ) (app : App) (stats : SharedStats) (ip : Ipv4Addr),
      keysNodup app.ip_histories → keysNodup stats.traffic_delta →
      mapLookup ip (onTickP cap tickMs app stats).1.ip_histories =
        (if 0 < (hostStep cap tickMs stats.traffic_delta
            app.ip_histories ip).1.total_sum
         then some (hostStep cap tickMs stats.traffic_delta
            app.ip_histories ip).1
         else none)) ∧
    (∀ (cap tickMs j : ℕ) (h : IpHistory),
      h.total_sum = h.samples.sum → h.samples.length = cap →
      ((fun hh : IpHistory => (hh.updateP cap tickMs 0).1)^[j] h).total_sum =
          (h.samples.drop j).sum ∧
        (((fun hh : IpHistory => (hh.updateP cap tickMs 0).1)^[j] h).total_sum
            = 0 ↔ ∀ x ∈ h.samples.drop j, x = 0)) :=
  ⟨fun cap tickMs app stats ip hn hd =>
      tick_lookup_char cap tickMs app stats hn hd ip,
   fun cap tickMs j h hinv hfull => by
      have hz := zero_feed_sum cap tickMs j h hinv hfull
      exact ⟨hz, by rw [hz]; exact List.sum_eq_zero_iff⟩⟩

/-- Witness for C3: a host tracked with window `[5, 0]` (capacity 2) given
delta 0; and one zero update on that full window. -/
theorem C3_host_pruning_witness :
    (mapLookup ⟨10, 0, 0, 1⟩
        (onTickP 2 1000
          { App.new with ip_histories := [(⟨10, 0, 0, 1⟩, ⟨[5, 0], 5⟩)] }
          ⟨[], 0, 0⟩).1.ip_histories =
      (if 0 < (hostStep 2 1000 ([] : List (Ipv4Addr × ℕ))
          [(⟨10, 0, 0, 1⟩, ⟨[5, 0], 5⟩)] ⟨10, 0, 0, 1⟩).1.total_sum
       then some (hostStep 2 1000 ([] : List (Ipv4Addr × ℕ))
          [(⟨10, 0, 0, 1⟩, ⟨[5, 0], 5⟩)] ⟨10, 0, 0, 1⟩).1
       else none)) ∧
    (((fun hh : IpHistory => (hh.updateP 2 1000 0).1)^[1]
        ⟨[5, 0], 5⟩).total_sum = (([5, 0] : List ℕ).drop 1).sum ∧
      (((fun hh : IpHistory => (hh.updateP 2 1000 0).1)^[1]
          ⟨[5, 0], 5⟩).total_sum = 0 ↔
        ∀ x ∈ ([5, 0] : List ℕ).drop 1, x = 0)) :=
  ⟨C3_host_pruning.1 2 1000
      { App.new with ip_histories := [(⟨10, 0, 0, 1⟩, ⟨[5, 0], 5⟩)] }
      ⟨[], 0, 0⟩ ⟨10, 0, 0, 1⟩ (by decide) (by decide),
   C3_host_pruning.2 2 1000 1 ⟨[5, 0], 5⟩ (by decide) (by decide)⟩

/-! ### Ranking lemmas -/

theorem rankSort_perm (l : List (Ipv4Addr × ℚ)) : (rankSort l).Perm l :=
  List.mergeSort_perm l _

theorem rankSort_sorted (l : List (Ipv4Addr × ℚ)) :
    List.Sorted (fun a b : Ipv4Addr × ℚ => b.2 ≤ a.2) (rankSort l) := by
  have h := @List.sorted_mergeSort (Ipv4Addr × ℚ)
    (fun a b => decide (b.2 ≤ a.2))
    (fun a b c hab hbc => by
      simp only [decide_eq_true_eq] at hab hbc ⊢
      exact le_trans hbc hab)
    (fun a b => by
      simp only [Bool.or_eq_true, decide_eq_true_eq]
      exact le_total b.2 a.2)
    l
  exact List.Pairwise.imp (fun hab => by simpa using hab) h

theorem map_fst_filterMap_ite (g : Ipv4Addr → IpHistory × ℚ)
    (p : Ipv4Addr → Prop) [DecidablePred p] (ips : List Ipv4Addr) :
    (ips.filterMap (fun ip =>
        if p ip then some (ip, (g ip).2) else none)).map Prod.fst =
      ips.filter (fun ip => decide (p ip)) := by
  induction ips with
  | nil => rfl
  | cons a rest ih =>
    rw [List.filterMap_cons, List.filter_cons]
    by_cases hp : p a
    · simp only [if_pos hp, List.map_cons, ih, decide_eq_true hp]
      rfl
    · simp only [if_neg hp, ih]
      rw [if_neg (by simpa using hp)]

/-- Claim C6: after a tick, `top_talkers` is sorted by average rate
descending, contains exactly one entry per currently tracked host (every
tracked host having a positive running sum), and is rebuilt wholesale from
scratch — the previous `top_talkers` value has no influence on the new one. -/
theorem C6_ranking (cap tickMs : ℕ) (app : App) (stats : SharedStats)
    (hn : keysNodup app.ip_histories) (hd : keysNodup stats.traffic_delta) :
    List.Sorted (fun a b : Ipv4Addr × ℚ => b.2 ≤ a.2)
        (onTickP cap tickMs app stats).1.top_talkers ∧
    ((onTickP cap tickMs app stats).1.top_talkers.map Prod.fst).Perm
        ((onTickP cap tickMs app stats).1.ip_histories.map Prod.fst) ∧
    (∀ p ∈ (onTickP cap tickMs app stats).1.ip_histories,
        0 < p.2.total_sum) ∧
    (∀ tt : List (Ipv4Addr × ℚ),
        (onTickP cap tickMs { app with top_talkers := tt } stats).1.top_talkers
          = (onTickP cap tickMs app stats).1.top_talkers) := by
  have htop : (onTickP cap tickMs app stats).1.top_talkers =
      rankSort (tickHostsP cap tickMs stats.traffic_delta
        (allIps app.ip_histories stats.traffic_delta) app.ip_histories []).2 :=
    rfl
  have hhist : (onTickP cap tickMs app stats).1.ip_histories =
      (tickHostsP cap tickMs stats.traffic_delta
        (allIps app.ip_histories stats.traffic_delta) app.ip_histories []).1 :=
    rfl
  have hips : (allIps app.ip_histories stats.traffic_delta).Nodup :=
    allIps_nodup hn hd
  have hsnap := tickHostsP_snd cap tickMs stats.traffic_delta
    (allIps app.ip_histories stats.traffic_delta) app.ip_histories [] hips hn
  rw [List.nil_append] at hsnap
  refine ⟨?_, ?_, ?_, fun tt => rfl⟩
  · rw [htop]
    exact rankSort_sorted _
  · rw [htop, hhist, hsnap]
    refine ((rankSort_perm _).map _).trans ?_
    rw [map_fst_filterMap_ite
      (fun ip => hostStep cap tickMs stats.traffic_delta app.ip_histories ip)
      (fun ip => 0 < (hostStep cap tickMs stats.traffic_delta
        app.ip_histories ip).1.total_sum)]
    refine (List.perm_ext_iff_of_nodup (List.Nodup.filter _ hips)
      (tickHostsP_keysNodup _ _ _ _ _ _ hn)).2 ?_
    intro a
    rw [List.mem_filter, decide_eq_true_eq]
    have hchar := tick_lookup_char cap tickMs app stats hn hd a
    rw [hhist] at hchar
    constructor
    · rintro ⟨hin, hpos⟩
      by_contra hmem
      rw [← mapLookup_eq_none_iff] at hmem
      rw [hchar, if_pos hpos] at hmem
      cases hmem
    · intro hmem
      have hsome : mapLookup a (tickHostsP cap tickMs stats.traffic_delta
          (allIps app.ip_histories stats.traffic_delta)
          app.ip_histories []).1 ≠ none :=
        fun hno => (mapLookup_eq_none_iff _ _).1 hno hmem
      rw [hchar] at hsome
      by_cases hpos : 0 < (hostStep cap tickMs stats.traffic_delta
          app.ip_histories a).1.total_sum
      · refine ⟨?_, hpos⟩
        by_contra hnotin
        have hz := hostStep_zero_of_not_mem cap tickMs
          stats.traffic_delta app.ip_histories a hnotin
        omega
      · rw [if_neg hpos] at hsome
        exact absurd rfl hsome
  · intro p hp
    rw [hhist] at hp
    have hl : mapLookup p.1 (tickHostsP cap tickMs stats.traffic_delta
        (allIps app.ip_histories stats.traffic_delta)
        app.ip_histories []).1 = some p.2 :=
      mapLookup_eq_some_of_mem (tickHostsP_keysNodup _ _ _ _ _ _ hn) hp
    have hchar := tick_lookup_char cap tickMs app stats hn hd p.1
    rw [hhist] at hchar
    rw [hchar] at hl
    by_cases hpos : 0 < (hostStep cap tickMs stats.traffic_delta
        app.ip_histories p.1).1.total_sum
    · rw [if_pos hpos] at hl
      have heq := Option.some_inj.1 hl
      rw [← heq]
      exact hpos
    · rw [if_neg hpos] at hl
      cases hl

/-- Witness for C6: one tracked host and one new drained host. -/
theorem C6_ranking_witness :
    List.Sorted (fun a b : Ipv4Addr × ℚ => b.2 ≤ a.2)
        (onTickP 3 500
          { App.new with ip_histories := [(⟨10, 0, 0, 1⟩, ⟨[5], 5⟩)] }
          ⟨[(⟨10, 0, 0, 2⟩, 7)], 7, 0⟩).1.top_talkers ∧
    ((onTickP 3 500
        { App.new with ip_histories := [(⟨10, 0, 0, 1⟩, ⟨[5], 5⟩)] }
        ⟨[(⟨10, 0, 0, 2⟩, 7)], 7, 0⟩).1.top_talkers.map Prod.fst).Perm
      ((onTickP 3 500
        { App.new with ip_histories := [(⟨10, 0, 0, 1⟩, ⟨[5], 5⟩)] }
        ⟨[(⟨10, 0, 0, 2⟩, 7)], 7, 0⟩).1.ip_histories.map Prod.fst) :=
  ⟨(C6_ranking 3 500
      { App.new with ip_histories := [(⟨10, 0, 0, 1⟩, ⟨[5], 5⟩)] }
      ⟨[(⟨10, 0, 0, 2⟩, 7)], 7, 0⟩ (by decide) (by decide)).1,
   (C6_ranking 3 500
      { App.new with ip_histories := [(⟨10, 0, 0, 1⟩, ⟨[5], 5⟩)] }
      ⟨[(⟨10, 0, 0, 2⟩, 7)], 7, 0⟩ (by decide) (by decide)).2.1⟩

/-- Claim C8: the tick pass is deterministic in the ranking up to tie
order.  The unspecified `HashMap` iteration order is modelled by running the
tick on two permutations of the same tracked registry (with the same drained
input): the resulting rankings are permutations of each other with
identical rate sequences (so they agree except possibly on the relative
order of equal-rate entries), and the resulting registries are again
permutations of each other with no duplicate keys, so the relation is
preserved from tick to tick. -/
theorem C8_determinism (cap tickMs : ℕ) (app1 app2 : App)
    (stats : SharedStats) (hn1 : keysNodup app1.ip_histories)
    (hperm : app1.ip_histories.Perm app2.ip_histories)
    (hd : keysNodup stats.traffic_delta) :
    ((onTickP cap tickMs app1 stats).1.top_talkers).Perm
        ((onTickP cap tickMs app2 stats).1.top_talkers) ∧
    (onTickP cap tickMs app1 stats).1.top_talkers.map Prod.snd =
      (onTickP cap tickMs app2 stats).1.top_talkers.map Prod.snd ∧
    ((onTickP cap tickMs app1 stats).1.ip_histories).Perm
        ((onTickP cap tickMs app2 stats).1.ip_histories) ∧
    keysNodup (onTickP cap tickMs app1 stats).1.ip_histories := by
  have hn2 : keysNodup app2.ip_histories := keysNodup_of_perm hperm hn1
  have hlook : ∀ k, mapLookup k app1.ip_histories =
      mapLookup k app2.ip_histories :=
    fun k => mapLookup_eq_of_perm k hperm hn1
  have htop1 : (onTickP cap tickMs app1 stats).1.top_talkers =
      rankSort (tickHostsP cap tickMs stats.traffic_delta
        (allIps app1.ip_histories stats.traffic_delta)
        app1.ip_histories []).2 := rfl
  have htop2 : (onTickP cap tickMs app2 stats).1.top_talkers =
      rankSort (tickHostsP cap tickMs stats.traffic_delta
        (allIps app2.ip_histories stats.traffic_delta)
        app2.ip_histories []).2 := rfl
  have hhist1 : (onTickP cap tickMs app1 stats).1.ip_histories =
      (tickHostsP cap tickMs stats.traffic_delta
        (allIps app1.ip_histories stats.traffic_delta)
        app1.ip_histories []).1 := rfl
  have hhist2 : (onTickP cap tickMs app2 stats).1.ip_histories =
      (tickHostsP cap tickMs stats.traffic_delta
        (allIps app2.ip_histories stats.traffic_delta)
        app2.ip_histories []).1 := rfl
  have hipsperm : (allIps app1.ip_histories stats.traffic_delta).Perm
      (allIps app2.ip_histories stats.traffic_delta) := by
    rw [allIps, allIps,
      List.filter_congr (fun x _ => by rw [hlook x])]
    exact List.Perm.append (hperm.map _) (List.Perm.refl _)
  have hsnap1 := tickHostsP_snd cap tickMs stats.traffic_delta
    (allIps app1.ip_histories stats.traffic_delta) app1.ip_histories []
    (allIps_nodup hn1 hd) hn1
  have hsnap2 := tickHostsP_snd cap tickMs stats.traffic_delta
    (allIps app2.ip_histories stats.traffic_delta) app2.ip_histories []
    (allIps_nodup hn2 hd) hn2
  rw [List.nil_append] at hsnap1 hsnap2
  have hfun : (fun ip =>
      if 0 < (hostStep cap tickMs stats.traffic_delta
          app1.ip_histories ip).1.total_sum
      then some (ip, (hostStep cap tickMs stats.traffic_delta
          app1.ip_histories ip).2) else none) =
      (fun ip =>
      if 0 < (hostStep cap tickMs stats.traffic_delta
          app2.ip_histories ip).1.total_sum
      then some (ip, (hostStep cap tickMs stats.traffic_delta
          app2.ip_histories ip).2) else none) :=
    funext (fun ip => by
      rw [hostStep_congr cap tickMs stats.traffic_delta ip (hlook ip)])
  have hsnapperm : ((tickHostsP cap tickMs stats.traffic_delta
      (allIps app1.ip_histories stats.traffic_delta)
      app1.ip_histories []).2).Perm
      ((tickHostsP cap tickMs stats.traffic_delta
        (allIps app2.ip_histories stats.traffic_delta)
        app2.ip_histories []).2) := by
    rw [hsnap1, hsnap2, hfun]
    exact hipsperm.filterMap _
  have httperm : ((onTickP cap tickMs app1 stats).1.top_talkers).Perm
      ((onTickP cap tickMs app2 stats).1.top_talkers) := by
    rw [htop1, htop2]
    exact ((rankSort_perm _).trans hsnapperm).trans (rankSort_perm _).symm
  have hsorted1 : List.Sorted (fun x y : ℚ => x ≥ y)
      ((onTickP cap tickMs app1 stats).1.top_talkers.map Prod.snd) := by
    rw [htop1]
    exact List.Pairwise.map Prod.snd (fun a b h => h) (rankSort_sorted _)
  have hsorted2 : List.Sorted (fun x y : ℚ => x ≥ y)
      ((onTickP cap tickMs app2 stats).1.top_talkers.map Prod.snd) := by
    rw [htop2]
    exact List.Pairwise.map Prod.snd (fun a b h => h) (rankSort_sorted _)
  have hnr1 : keysNodup (onTickP cap tickMs app1 stats).1.ip_histories := by
    rw [hhist1]
    exact tickHostsP_keysNodup _ _ _ _ _ _ hn1
  have hnr2 : keysNodup (onTickP cap tickMs app2 stats).1.ip_histories := by
    rw [hhist2]
    exact tickHostsP_keysNodup _ _ _ _ _ _ hn2
  have hlookres : ∀ k, mapLookup k (onTickP cap tickMs app1 stats).1.ip_histories
      = mapLookup k (onTickP cap tickMs app2 stats).1.ip_histories := by
    intro k
    rw [tick_lookup_char cap tickMs app1 stats hn1 hd k,
      tick_lookup_char cap tickMs app2 stats hn2 hd k,
      hostStep_congr cap tickMs stats.traffic_delta k (hlook k)]
  refine ⟨httperm, ?_, ?_, hnr1⟩
  · exact List.eq_of_perm_of_sorted (httperm.map Prod.snd) hsorted1 hsorted2
  · refine (List.perm_ext_iff_of_nodup
      (List.Nodup.of_map Prod.fst hnr1) (List.Nodup.of_map Prod.fst hnr2)).2 ?_
    intro a
    constructor
    · intro hmem
      exact mem_of_mapLookup_eq_some
        ((hlookres a.1).symm ▸ mapLookup_eq_some_of_mem hnr1 hmem)
    · intro hmem
      exact mem_of_mapLookup_eq_some
        ((hlookres a.1) ▸ mapLookup_eq_some_of_mem hnr2 hmem)

/-- Witness for C8: the same two-host registry in both orders. -/
theorem C8_determinism_witness :
    ((onTickP 4 500
        { App.new with ip_histories :=
            [(⟨10, 0, 0, 1⟩, ⟨[5], 5⟩), (⟨192, 168, 1, 9⟩, ⟨[2], 2⟩)] }
        ⟨[], 3, 4⟩).1.top_talkers).Perm
      ((onTickP 4 500
        { App.new with ip_histories :=
            [(⟨192, 168, 1, 9⟩, ⟨[2], 2⟩), (⟨10, 0, 0, 1⟩, ⟨[5], 5⟩)] }
        ⟨[], 3, 4⟩).1.top_talkers) ∧
    (onTickP 4 500
        { App.new with ip_histories :=
            [(⟨10, 0, 0, 1⟩, ⟨[5], 5⟩), (⟨192, 168, 1, 9⟩, ⟨[2], 2⟩)] }
        ⟨[], 3, 4⟩).1.top_talkers.map Prod.snd =
      (onTickP 4 500
        { App.new with ip_histories :=
            [(⟨192, 168, 1, 9⟩, ⟨[2], 2⟩), (⟨10, 0, 0, 1⟩, ⟨[5], 5⟩)] }
        ⟨[], 3, 4⟩).1.top_talkers.map Prod.snd :=
  ⟨(C8_determinism 4 500
      { App.new with ip_histories :=
          [(⟨10, 0, 0, 1⟩, ⟨[5], 5⟩), (⟨192, 168, 1, 9⟩, ⟨[2], 2⟩)] }
      { App.new with ip_histories :=
          [(⟨192, 168, 1, 9⟩, ⟨[2], 2⟩), (⟨10, 0, 0, 1⟩, ⟨[5], 5⟩)] }
      ⟨[], 3, 4⟩ (by decide) (List.Perm.swap _ _ _) (by decide)).1,
   (C8_determinism 4 500
      { App.new with ip_histories :=
          [(⟨10, 0, 0, 1⟩, ⟨[5], 5⟩), (⟨192, 168, 1, 9⟩, ⟨[2], 2⟩)] }
      { App.new with ip_histories :=
          [(⟨192, 168, 1, 9⟩, ⟨[2], 2⟩), (⟨10, 0, 0, 1⟩, ⟨[5], 5⟩)] }
      ⟨[], 3, 4⟩ (by decide) (List.Perm.swap _ _ _) (by decide)).2.1⟩

/-! ### Global history, direction counters, per-host counters, drain -/

/-- The application state after a sequence of ticks starting from
`App::new`, with the program's constants. -/
def runTicks (ticks : List SharedStats) : App :=
  ticks.foldl (fun a s => (a.on_tick s).1) App.new

theorem runTicks_length :
    ∀ (ticks : List SharedStats) (a : App),
      a.rx_history.length = MAX_SAMPLES → a.tx_history.length = MAX_SAMPLES →
      (ticks.foldl (fun a s => (a.on_tick s).1) a).rx_history.length
          = MAX_SAMPLES ∧
        (ticks.foldl (fun a s => (a.on_tick s).1) a).tx_history.length
          = MAX_SAMPLES := by
  intro ticks
  induction ticks with
  | nil => intro a h1 h2; exact ⟨h1, h2⟩
  | cons s rest ih =>
    intro a h1 h2
    have hM : 0 < MAX_SAMPLES := by decide
    refine ih _ ?_ ?_
    · show (a.rx_history.tail ++ [(s.rx_delta : ℚ)]).length = MAX_SAMPLES
      simp only [List.length_append, List.length_tail, List.length_cons,
        List.length_nil]
      omega
    · show (a.tx_history.tail ++ [(s.tx_delta : ℚ)]).length = MAX_SAMPLES
      simp only [List.length_append, List.length_tail, List.length_cons,
        List.length_nil]
      omega

/-- Claim C7: the two global history buffers start as `MAX_SAMPLES` zeros,
every tick drops their oldest element and appends the tick's drained total,
and after any number of ticks they still have exactly length
`MAX_SAMPLES`. -/
theorem C7_bounded_history (ticks : List SharedStats) :
    (runTicks ticks).rx_history.length = MAX_SAMPLES ∧
    (runTicks ticks).tx_history.length = MAX_SAMPLES ∧
    App.new.rx_history = List.replicate MAX_SAMPLES 0 ∧
    App.new.tx_history = List.replicate MAX_SAMPLES 0 ∧
    (∀ (app : App) (s : SharedStats),
      (app.on_tick s).1.rx_history =
          app.rx_history.tail ++ [(s.rx_delta : ℚ)] ∧
        (app.on_tick s).1.tx_history =
          app.tx_history.tail ++ [(s.tx_delta : ℚ)]) := by
  have h := runTicks_length ticks App.new (by simp [App.new]) (by simp [App.new])
  exact ⟨h.1, h.2, rfl, rfl, fun app s => ⟨rfl, rfl⟩⟩

/-- Claim C9: every captured IPv4 frame adds its length to exactly one of
the two direction counters, chosen only by whether the frame's source equals
the single local IP: `tx_delta` when it does, `rx_delta` in every other
case — including frames between two hosts neither of which is local, which
count as inbound. -/
theorem record_rx_delta (local_ip : Ipv4Addr) (s : SharedStats) (f : Frame) :
    (record local_ip s f).rx_delta =
      if f.src = local_ip then s.rx_delta else s.rx_delta + f.len := by
  simp only [record]
  split_ifs <;> rfl

theorem record_tx_delta (local_ip : Ipv4Addr) (s : SharedStats) (f : Frame) :
    (record local_ip s f).tx_delta =
      if f.src = local_ip then s.tx_delta + f.len else s.tx_delta := by
  simp only [record]
  split_ifs <;> rfl

theorem record_traffic_delta (local_ip : Ipv4Addr) (s : SharedStats)
    (f : Frame) :
    (record local_ip s f).traffic_delta =
      (if is_lan_ip f.dst then
        mapInsert f.dst ((mapLookup f.dst
          (if is_lan_ip f.src then
            mapInsert f.src ((mapLookup f.src s.traffic_delta).getD 0 + f.len)
              s.traffic_delta
           else s.traffic_delta)).getD 0 + f.len)
          (if is_lan_ip f.src then
            mapInsert f.src ((mapLookup f.src s.traffic_delta).getD 0 + f.len)
              s.traffic_delta
           else s.traffic_delta)
       else (if is_lan_ip f.src then
            mapInsert f.src ((mapLookup f.src s.traffic_delta).getD 0 + f.len)
              s.traffic_delta
           else s.traffic_delta)) := by
  simp only [record]
  split_ifs <;> rfl

theorem C9_direction_counters (local_ip : Ipv4Addr) (s : SharedStats)
    (f : Frame) :
    (record local_ip s f).rx_delta + (record local_ip s f).tx_delta =
        s.rx_delta + s.tx_delta + f.len ∧
    (f.src = local_ip →
      (record local_ip s f).tx_delta = s.tx_delta + f.len ∧
      (record local_ip s f).rx_delta = s.rx_delta) ∧
    (f.src ≠ local_ip →
      (record local_ip s f).rx_delta = s.rx_delta + f.len ∧
      (record local_ip s f).tx_delta = s.tx_delta) := by
  have hrx := record_rx_delta local_ip s f
  have htx := record_tx_delta local_ip s f
  by_cases h1 : f.src = local_ip
  · rw [hrx, htx, if_pos h1, if_pos h1]
    exact ⟨by omega, fun _ => ⟨rfl, rfl⟩, fun hc => absurd h1 hc⟩
  · rw [hrx, htx, if_neg h1, if_neg h1]
    exact ⟨by omega, fun hc => absurd hc h1, fun _ => ⟨rfl, rfl⟩⟩

/-- Witness for C9: a frame between two non-local hosts is counted as
inbound only. -/
theorem C9_direction_counters_witness :
    (record ⟨192, 168, 1, 1⟩ ⟨[], 10, 20⟩
        ⟨⟨8, 8, 8, 8⟩, ⟨9, 9, 9, 9⟩, 60⟩).rx_delta = 10 + 60 ∧
    (record ⟨192, 168, 1, 1⟩ ⟨[], 10, 20⟩
        ⟨⟨8, 8, 8, 8⟩, ⟨9, 9, 9, 9⟩, 60⟩).tx_delta = 20 :=
  (C9_direction_counters ⟨192, 168, 1, 1⟩ ⟨[], 10, 20⟩
    ⟨⟨8, 8, 8, 8⟩, ⟨9, 9, 9, 9⟩, 60⟩).2.2 (by decide)

theorem lookupD_bump (k h : Ipv4Addr) (n : ℕ) (l : List (Ipv4Addr × ℕ)) :
    (mapLookup h (mapInsert k ((mapLookup k l).getD 0 + n) l)).getD 0 =
      (mapLookup h l).getD 0 + (if h = k then n else 0) := by
  by_cases hk : h = k
  · subst hk
    rw [mapLookup_insert_self, if_pos rfl]
    rfl
  · rw [mapLookup_insert_ne hk, if_neg hk, Nat.add_zero]

/-- Claim C10: the per-host counter of the source is bumped by the frame
length iff `is_lan_ip` holds for the source, independently likewise for the
destination (so a frame with equal qualifying source and destination bumps
that host twice); and `is_lan_ip` holds exactly for first octet 10 or first
octets 192.168. -/
theorem C10_lan_attribution (local_ip : Ipv4Addr) (s : SharedStats)
    (f : Frame) (h : Ipv4Addr) :
    ((mapLookup h (record local_ip s f).traffic_delta).getD 0 =
      (mapLookup h s.traffic_delta).getD 0 +
        (if h = f.src ∧ is_lan_ip f.src = true then f.len else 0) +
        (if h = f.dst ∧ is_lan_ip f.dst = true then f.len else 0)) ∧
    (is_lan_ip h = true ↔ h.o0 = 10 ∨ (h.o0 = 192 ∧ h.o1 = 168)) := by
  constructor
  · rw [record_traffic_delta]
    by_cases h2 : is_lan_ip f.src <;> by_cases h3 : is_lan_ip f.dst
    · rw [if_pos h3, if_pos h2, lookupD_bump, lookupD_bump]
      simp only [h2, h3, and_true]
    · rw [if_neg h3, if_pos h2, lookupD_bump]
      simp [h2, h3]
    · rw [if_pos h3, if_neg h2, lookupD_bump]
      simp [h2, h3]
    · rw [if_neg h3, if_neg h2]
      simp [h2, h3]
  · rw [is_lan_ip]
    simp only [Bool.or_eq_true, Bool.and_eq_true, beq_iff_eq]
    tauto

theorem record_iterate (local_ip host remote : Ipv4Addr)
    (hsrc : is_lan_ip host = true) (hdst : is_lan_ip remote = false)
    (hne : host ≠ local_ip) :
    ∀ N : ℕ, (fun s => record local_ip s ⟨host, remote, 1⟩)^[N] ⟨[], 0, 0⟩ =
      ⟨if N = 0 then [] else [(host, N)], N, 0⟩ := by
  intro N
  induction N with
  | zero => rfl
  | succ n ih =>
    rw [Function.iterate_succ_apply', ih]
    cases n with
    | zero =>
      simp [record, hne, hsrc, hdst, mapInsert, mapLookup]
    | succ m =>
      simp [record, hne, hsrc, hdst, mapInsert, mapLookup]

/-- Claim C2: the drain step of a tick takes the per-host mapping and the
two global scalars and resets all three to empty/zero; `N` record calls each
adding 1 byte to the same (non-local, LAN) host followed by one drain yield
a drained per-host value of exactly `N` (and a drained inbound total of
`N`), the post-drain accumulator is empty, and the `N` bytes land in the
consumer's totals — so nothing is lost or double-counted across consecutive
drains. -/
theorem C2_exactly_once (cap tickMs N : ℕ) (local_ip host remote : Ipv4Addr)
    (app : App) (hsrc : is_lan_ip host = true)
    (hdst : is_lan_ip remote = false) (hne : host ≠ local_ip) :
    (mapLookup host ((fun s => record local_ip s ⟨host, remote, 1⟩)^[N]
        ⟨[], 0, 0⟩).traffic_delta).getD 0 = N ∧
    ((fun s => record local_ip s ⟨host, remote, 1⟩)^[N]
        ⟨[], 0, 0⟩).rx_delta = N ∧
    ((fun s => record local_ip s ⟨host, remote, 1⟩)^[N]
        ⟨[], 0, 0⟩).tx_delta = 0 ∧
    (onTickP cap tickMs app ((fun s => record local_ip s ⟨host, remote, 1⟩)^[N]
        ⟨[], 0, 0⟩)).2 = ⟨[], 0, 0⟩ ∧
    (onTickP cap tickMs app ((fun s => record local_ip s ⟨host, remote, 1⟩)^[N]
        ⟨[], 0, 0⟩)).1.total_rx_bytes = app.total_rx_bytes + N := by
  have hit := record_iterate local_ip host remote hsrc hdst hne N
  rw [hit]
  refine ⟨?_, rfl, rfl, rfl, rfl⟩
  cases N with
  | zero => rfl
  | succ n => simp [mapLookup]

/-- Witness for C2: three 1-byte frames from 10.0.0.7 to 8.8.8.8, drained
once. -/
theorem C2_exactly_once_witness :
    (mapLookup ⟨10, 0, 0, 7⟩
        ((fun s => record ⟨192, 168, 1, 1⟩ s
          ⟨⟨10, 0, 0, 7⟩, ⟨8, 8, 8, 8⟩, 1⟩)^[3] ⟨[], 0, 0⟩).traffic_delta).getD 0
      = 3 ∧
    (onTickP 4 1000 App.new
        ((fun s => record ⟨192, 168, 1, 1⟩ s
          ⟨⟨10, 0, 0, 7⟩, ⟨8, 8, 8, 8⟩, 1⟩)^[3] ⟨[], 0, 0⟩)).2 = ⟨[], 0, 0⟩ :=
  ⟨(C2_exactly_once 4 1000 3 ⟨192, 168, 1, 1⟩ ⟨10, 0, 0, 7⟩ ⟨8, 8, 8, 8⟩
      App.new (by decide) (by decide) (by decide)).1,
   (C2_exactly_once 4 1000 3 ⟨192, 168, 1, 1⟩ ⟨10, 0, 0, 7⟩ ⟨8, 8, 8, 8⟩
      App.new (by decide) (by decide) (by decide)).2.2.2.1⟩

/-! ### The spec's worked scenario (claim C4) -/

/-- The single host of the spec's scenario. -/
def hostA : Ipv4Addr := ⟨10, 0, 0, 1⟩

/-- One tick's drained input for the scenario: one host with delta `d`. -/
def scenStats (d : ℕ) : SharedStats := ⟨[(hostA, d)], d, 0⟩

/-- Run the scenario's ticks (capacity 4, tick interval 1000 ms = 1 s) from
`App::new`, collecting the `top_talkers` snapshot after every tick. -/
def scenRun (ds : List ℕ) : App × List (List (Ipv4Addr × ℚ)) :=
  ds.foldl (fun p d =>
    ((onTickP 4 1000 p.1 (scenStats d)).1,
      p.2 ++ [(onTickP 4 1000 p.1 (scenStats d)).1.top_talkers]))
    (App.new, [])

/-- Counterexample to C4 as stated: after the six deltas
`100,100,100,100,0,0` (capacity 4, 1 s ticks) the host's running sum at
tick 6 is 200, not 0, and the host is still tracked (not removed). -/
theorem C4_counterexample :
    mapLookup hostA (scenRun [100, 100, 100, 100, 0, 0]).1.ip_histories =
        some ⟨[100, 100, 0, 0], 200⟩ ∧
      ¬ (mapLookup hostA
          (scenRun [100, 100, 100, 100, 0, 0]).1.ip_histories = none) ∧
      ¬ ((mapLookup hostA (scenRun [100, 100, 100, 100, 0, 0]).1.ip_histories
          ).getD IpHistory.new).total_sum = 0 := by
  refine ⟨by decide, by decide, by decide⟩

/-- Amended C4: the six rates are 100,100,100,100,75,50 as claimed, but at
tick 6 the running sum is 200 and the host stays tracked; continuing with
zero deltas the sum is 100 at tick 7 and first reaches 0 at tick 8, the
tick on which the host is removed from tracking. -/
theorem C4_scenario_amended :
    (scenRun [100, 100, 100, 100, 0, 0]).2 =
        [[(hostA, 100)], [(hostA, 100)], [(hostA, 100)], [(hostA, 100)],
          [(hostA, 75)], [(hostA, 50)]] ∧
      mapLookup hostA (scenRun [100, 100, 100, 100, 0, 0]).1.ip_histories =
        some ⟨[100, 100, 0, 0], 200⟩ ∧
      mapLookup hostA (scenRun [100, 100, 100, 100, 0, 0, 0]).1.ip_histories =
        some ⟨[100, 0, 0, 0], 100⟩ ∧
      (scenRun [100, 100, 100, 100, 0, 0, 0, 0]).1.ip_histories = [] ∧
      (scenRun [100, 100, 100, 100, 0, 0, 0, 0]).2 =
        [[(hostA, 100)], [(hostA, 100)], [(hostA, 100)], [(hostA, 100)],
          [(hostA, 75)], [(hostA, 50)], [(hostA, 25)], []] := by
  refine ⟨?_, by decide, by decide, by decide, ?_⟩ <;>
    norm_num [scenRun, onTickP, tickHostsP, hostStep, IpHistory.updateP,
      IpHistory.new, mapLookup, mapInsert, mapRemove, allIps, scenStats,
      App.new, rankSort, hostA]

end NetMonitor
